import Mathlib

/-!
Verification of the finch repository's text-classifier classes
(`rnn_attn_text_clf.py` and `conv_1d_text_clf.py`) against their
natural-language specification.  The Python classes are shallowly
embedded: graph construction becomes a list of stage tags, the
minibatch generator and scoring glue become Lean list functions, and
the real-valued formulas (learning-rate decay, softmax attention)
become functions over `ℝ`.  Session execution (`sess.run`) is an
oracle: an abstract per-batch or per-row function.
-/

/-- Tags for the tensor-graph stages that `build_graph` wires together,
one constructor per `add_*` method appearing in either class. -/
inductive Stage where
  | input
  | wordEmbedding
  | lstmCells
  | dynamicRNN
  | attention
  | conv1d
  | globalMaxpool
  | fc
  | output
  | backward
deriving DecidableEq, Repr

namespace RNNTextClassifier

/-- Stage sequence of `RNNTextClassifier.build_graph`:
`add_input_layer; add_word_embedding_layer; add_lstm_cells;
add_dynamic_rnn; add_attention; add_output_layer; add_backward_path`. -/
def build_graph : List Stage :=
  [Stage.input, Stage.wordEmbedding, Stage.lstmCells, Stage.dynamicRNN,
   Stage.attention, Stage.output, Stage.backward]

end RNNTextClassifier

namespace Conv1DClassifier

/-- Stage sequence of `Conv1DClassifier.build_graph`:
`add_input_layer; add_word_embedding; add_conv1d; add_global_maxpool;
add_fc; add_output_layer; add_backward_path`. -/
def build_graph : List Stage :=
  [Stage.input, Stage.wordEmbedding, Stage.conv1d, Stage.globalMaxpool,
   Stage.fc, Stage.output, Stage.backward]

end Conv1DClassifier

/-- Minibatch generator shared verbatim by both classes
(`gen_batch`): `for i in range(0, len(arr), batch_size): yield
arr[i : i+batch_size]`.  The slice `arr[i : i+batch_size]` is
`(arr.drop i).take batch_size`; the successive loop iterations are
unrolled into recursion on the remaining list (the `batch_size = 0`
guard only serves termination; Python raises on a zero `range` step
and every claim assumes `batch_size > 0`). -/
def gen_batch (arr : List α) (batch_size : ℕ) : List (List α) :=
  if batch_size = 0 then []
  else if arr.isEmpty then []
  else arr.take batch_size :: gen_batch (arr.drop batch_size) batch_size
termination_by arr.length
decreasing_by
  rename_i h1 h2
  have hb : 0 < batch_size := Nat.pos_of_ne_zero h1
  have ha : 0 < arr.length := by
    rcases arr with _ | _
    · simp at h2
    · simp
  simp only [List.length_drop]
  omega

theorem gen_batch_nil (batch_size : ℕ) :
    gen_batch ([] : List α) batch_size = [] := by
  rw [gen_batch.eq_def]
  simp

theorem gen_batch_cons (arr : List α) (batch_size : ℕ)
    (hbs : batch_size ≠ 0) (harr : arr ≠ []) :
    gen_batch arr batch_size =
      arr.take batch_size :: gen_batch (arr.drop batch_size) batch_size := by
  rw [gen_batch.eq_def]
  simp [hbs, harr]

theorem gen_batch_ne_nil (arr : List α) (batch_size : ℕ)
    (hbs : batch_size ≠ 0) (harr : arr ≠ []) :
    gen_batch arr batch_size ≠ [] := by
  rw [gen_batch_cons arr batch_size hbs harr]
  simp

/-- Concatenating the generated batches recovers the input list. -/
theorem gen_batch_flatten (arr : List α) (batch_size : ℕ) :
    0 < batch_size → (gen_batch arr batch_size).flatten = arr := by
  induction arr, batch_size using gen_batch.induct with
  | case1 arr =>
      intro h
      exact absurd h (lt_irrefl 0)
  | case2 arr batch_size hbs he =>
      intro _
      have harr : arr = [] := List.isEmpty_iff.mp he
      subst harr
      simp [gen_batch_nil]
  | case3 arr batch_size hbs he ih =>
      intro hpos
      have harr : arr ≠ [] := by
        intro h
        exact he (by simp [h])
      rw [gen_batch_cons arr batch_size hbs harr]
      simp only [List.flatten_cons]
      rw [ih hpos]
      exact List.take_append_drop batch_size arr

/-- Every generated batch except possibly the last has length exactly
`batch_size`. -/
theorem gen_batch_dropLast_length (arr : List α) (batch_size : ℕ) :
    0 < batch_size →
    ∀ b ∈ (gen_batch arr batch_size).dropLast, b.length = batch_size := by
  induction arr, batch_size using gen_batch.induct with
  | case1 arr =>
      intro h
      exact absurd h (lt_irrefl 0)
  | case2 arr batch_size hbs he =>
      intro _
      have harr : arr = [] := List.isEmpty_iff.mp he
      subst harr
      simp [gen_batch_nil]
  | case3 arr batch_size hbs he ih =>
      intro hpos
      have harr : arr ≠ [] := by
        intro h
        exact he (by simp [h])
      rw [gen_batch_cons arr batch_size hbs harr]
      by_cases hd : arr.drop batch_size = []
      · rw [hd, gen_batch_nil]
        simp
      · rw [List.dropLast_cons_of_ne_nil (gen_batch_ne_nil _ _ hbs hd)]
        intro b hb
        rcases List.mem_cons.mp hb with hb | hb
        · subst hb
          have hlen : batch_size ≤ arr.length := by
            by_contra hlt
            push_neg at hlt
            exact hd (List.drop_eq_nil_of_le (le_of_lt hlt))
          simp [List.length_take, Nat.min_eq_left hlen]
        · exact ih hpos b hb

/-- When `len arr % batch_size ≠ 0`, the last generated batch has
length `len arr % batch_size`. -/
theorem gen_batch_getLast_length (arr : List α) (batch_size : ℕ) :
    0 < batch_size → arr.length % batch_size ≠ 0 →
    ∀ b, (gen_batch arr batch_size).getLast? = some b →
      b.length = arr.length % batch_size := by
  induction arr, batch_size using gen_batch.induct with
  | case1 arr =>
      intro h
      exact absurd h (lt_irrefl 0)
  | case2 arr batch_size hbs he =>
      intro _ hmod
      have harr : arr = [] := List.isEmpty_iff.mp he
      subst harr
      simp at hmod
  | case3 arr batch_size hbs he ih =>
      intro hpos hmod
      have harr : arr ≠ [] := by
        intro h
        exact he (by simp [h])
      rw [gen_batch_cons arr batch_size hbs harr]
      by_cases hd : arr.drop batch_size = []
      · intro b hb
        rw [hd, gen_batch_nil] at hb
        have hb' : b = arr.take batch_size := by
          simpa [List.getLast?_cons] using hb.symm
        have hlen : arr.length ≤ batch_size := List.drop_eq_nil_iff.mp hd
        have hne : arr.length ≠ batch_size := by
          intro h
          rw [h] at hmod
          simp at hmod
        have hlt : arr.length < batch_size := lt_of_le_of_ne hlen hne
        rw [hb']
        simp [List.length_take, Nat.min_eq_right hlen, Nat.mod_eq_of_lt hlt]
      · intro b hb
        have hne : gen_batch (arr.drop batch_size) batch_size ≠ [] :=
          gen_batch_ne_nil _ _ hbs hd
        rw [List.getLast?_cons] at hb
        cases hg : (gen_batch (arr.drop batch_size) batch_size).getLast? with
        | none => exact absurd (List.getLast?_eq_none_iff.mp hg) hne
        | some c =>
            rw [hg] at hb
            have hcb : c = b := by simpa using hb
            have hlen : batch_size ≤ arr.length := by
              by_contra hlt
              push_neg at hlt
              exact hd (List.drop_eq_nil_of_le (le_of_lt hlt))
            have hmodeq : (arr.length - batch_size) % batch_size
                = arr.length % batch_size := by
              conv_rhs => rw [← Nat.sub_add_cancel hlen]
              rw [Nat.add_mod_right]
            have hmod' : (arr.drop batch_size).length % batch_size ≠ 0 := by
              rw [List.length_drop, hmodeq]
              exact hmod
            have hc := ih hpos hmod' c hg
            rw [← hcb, hc, List.length_drop, hmodeq]

/-- C1 counterexample: it is not true that every classifier class's
graph contains an attention-pooling step — `Conv1DClassifier.build_graph`
contains no `attention` stage (its pooling stage is `globalMaxpool`). -/
theorem C1_attention_in_every_class_false :
    ¬ ∀ g ∈ [RNNTextClassifier.build_graph, Conv1DClassifier.build_graph],
        Stage.attention ∈ g := by
  decide

/-- C1 (amended): each class wires, in order, an embedding lookup, a
feature-extraction stage (recurrent for `RNNTextClassifier`,
convolutional for `Conv1DClassifier`), a pooling stage (attention
pooling for the RNN class, global max-pool for the CNN class), a dense
output layer, and the loss/optimizer stage; only `RNNTextClassifier`
has an attention-pooling step between feature extraction and the dense
output, while `Conv1DClassifier` pools with a global max-pool instead. -/
theorem build_graph_stage_order :
    List.Sublist
      [Stage.wordEmbedding, Stage.dynamicRNN, Stage.attention,
       Stage.output, Stage.backward] RNNTextClassifier.build_graph ∧
    List.Sublist
      [Stage.wordEmbedding, Stage.conv1d, Stage.globalMaxpool,
       Stage.output, Stage.backward] Conv1DClassifier.build_graph ∧
    Stage.attention ∈ RNNTextClassifier.build_graph ∧
    Stage.attention ∉ Conv1DClassifier.build_graph := by
  decide

/-- C3: for every list `arr` and `batch_size > 0`, the batches yielded
by `gen_batch`, concatenated in order, equal `arr` exactly; every
batch except possibly the last has length `batch_size`, and when
`len arr % batch_size ≠ 0` the last batch has that remainder length. -/
theorem gen_batch_spec (arr : List α) (batch_size : ℕ)
    (hbs : 0 < batch_size) :
    (gen_batch arr batch_size).flatten = arr ∧
    (∀ b ∈ (gen_batch arr batch_size).dropLast, b.length = batch_size) ∧
    (arr.length % batch_size ≠ 0 →
      ∀ b, (gen_batch arr batch_size).getLast? = some b →
        b.length = arr.length % batch_size) :=
  ⟨gen_batch_flatten arr batch_size hbs,
   gen_batch_dropLast_length arr batch_size hbs,
   fun hmod => gen_batch_getLast_length arr batch_size hbs hmod⟩

/-- Witness for C3 at `arr = [0,1,2,3,4]`, `batch_size = 2`. -/
theorem gen_batch_spec_witness :
    (gen_batch ([0, 1, 2, 3, 4] : List ℕ) 2).flatten = [0, 1, 2, 3, 4] ∧
    (∀ b ∈ (gen_batch ([0, 1, 2, 3, 4] : List ℕ) 2).dropLast,
        b.length = 2) ∧
    (([0, 1, 2, 3, 4] : List ℕ).length % 2 ≠ 0 →
      ∀ b, (gen_batch ([0, 1, 2, 3, 4] : List ℕ) 2).getLast? = some b →
        b.length = ([0, 1, 2, 3, 4] : List ℕ).length % 2) :=
  gen_batch_spec [0, 1, 2, 3, 4] 2 (by decide)

namespace RNNTextClassifier

/-- Learning-rate schedule of `RNNTextClassifier.decrease_lr`:
`decay_rate = log(min_lr/max_lr) / (-n_epoch*len_X/batch_size)`;
`lr = max_lr * exp(-decay_rate*global_step)` with `max_lr = 0.005`,
`min_lr = 0.001`, and the constant `0.001` when decay is disabled.
Floats are modelled as real numbers. -/
noncomputable def decrease_lr (en_exp_decay : Bool)
    (global_step n_epoch len_X batch_size : ℝ) : ℝ :=
  if en_exp_decay then
    let max_lr : ℝ := 0.005
    let min_lr : ℝ := 0.001
    let decay_rate := Real.log (min_lr / max_lr) / (-(n_epoch * len_X) / batch_size)
    max_lr * Real.exp (-decay_rate * global_step)
  else 0.001

end RNNTextClassifier

namespace Conv1DClassifier

/-- Learning-rate schedule of `Conv1DClassifier.decrease_lr`, the same
formula with `max_lr = 0.003` and `min_lr = 0.0001`. -/
noncomputable def decrease_lr (en_exp_decay : Bool)
    (global_step n_epoch len_X batch_size : ℝ) : ℝ :=
  if en_exp_decay then
    let max_lr : ℝ := 0.003
    let min_lr : ℝ := 0.0001
    let decay_rate := Real.log (min_lr / max_lr) / (-(n_epoch * len_X) / batch_size)
    max_lr * Real.exp (-decay_rate * global_step)
  else 0.001

end Conv1DClassifier

section ExpDecay

variable {max_lr min_lr T : ℝ}

/-- With `0 < min_lr < max_lr` and a positive horizon `T`, the decay
rate `log(min_lr/max_lr)/(-T)` is positive. -/
lemma expDecay_rate_pos (hmin : 0 < min_lr) (hlt : min_lr < max_lr)
    (hT : 0 < T) : 0 < Real.log (min_lr / max_lr) / (-T) := by
  have hmax : 0 < max_lr := hmin.trans hlt
  have hlog : Real.log (min_lr / max_lr) < 0 :=
    Real.log_neg (div_pos hmin hmax) ((div_lt_one hmax).mpr hlt)
  rw [div_neg]
  exact neg_pos.mpr (div_neg_of_neg_of_pos hlog hT)

/-- The exponential-decay curve is strictly decreasing in the step. -/
lemma expDecay_strictAnti (hmin : 0 < min_lr) (hlt : min_lr < max_lr)
    (hT : 0 < T) (g1 g2 : ℝ) (h : g1 < g2) :
    max_lr * Real.exp (-(Real.log (min_lr / max_lr) / (-T)) * g2) <
      max_lr * Real.exp (-(Real.log (min_lr / max_lr) / (-T)) * g1) := by
  have hmax : 0 < max_lr := hmin.trans hlt
  have hd : 0 < Real.log (min_lr / max_lr) / (-T) :=
    expDecay_rate_pos hmin hlt hT
  have harg : -(Real.log (min_lr / max_lr) / (-T)) * g2 <
      -(Real.log (min_lr / max_lr) / (-T)) * g1 := by
    have := mul_lt_mul_of_pos_left h hd
    nlinarith
  exact mul_lt_mul_of_pos_left (Real.exp_lt_exp.mpr harg) hmax

/-- The exponential-decay curve starts at `max_lr`. -/
lemma expDecay_at_zero (max_lr min_lr T : ℝ) :
    max_lr * Real.exp (-(Real.log (min_lr / max_lr) / (-T)) * 0) = max_lr := by
  simp

/-- The exponential-decay curve reaches `min_lr` at step `T`. -/
lemma expDecay_at_T (hmin : 0 < min_lr) (hlt : min_lr < max_lr)
    (hT : 0 < T) :
    max_lr * Real.exp (-(Real.log (min_lr / max_lr) / (-T)) * T) = min_lr := by
  have hmax : 0 < max_lr := hmin.trans hlt
  have harg : -(Real.log (min_lr / max_lr) / (-T)) * T
      = Real.log (min_lr / max_lr) := by
    rw [div_neg, neg_neg, div_mul_cancel₀ _ (ne_of_gt hT)]
  rw [harg, Real.exp_log (div_pos hmin hmax), mul_comm,
    div_mul_cancel₀ _ (ne_of_gt hmax)]

end ExpDecay

/-- C2: for positive `n_epoch`, `len_X`, `batch_size` and
`en_exp_decay = true`, both classes' `decrease_lr` are strictly
decreasing in `global_step`, return `max_lr` (`0.005` for
`RNNTextClassifier`, `0.003` for `Conv1DClassifier`) at step `0`, and
return `min_lr` (`0.001`, resp. `0.0001`) at step
`n_epoch*len_X/batch_size`. -/
theorem decrease_lr_spec (n_epoch len_X batch_size : ℝ)
    (hn : 0 < n_epoch) (hl : 0 < len_X) (hb : 0 < batch_size) :
    (∀ g1 g2 : ℝ, g1 < g2 →
        RNNTextClassifier.decrease_lr true g2 n_epoch len_X batch_size <
          RNNTextClassifier.decrease_lr true g1 n_epoch len_X batch_size) ∧
    RNNTextClassifier.decrease_lr true 0 n_epoch len_X batch_size = 0.005 ∧
    RNNTextClassifier.decrease_lr true (n_epoch * len_X / batch_size)
        n_epoch len_X batch_size = 0.001 ∧
    (∀ g1 g2 : ℝ, g1 < g2 →
        Conv1DClassifier.decrease_lr true g2 n_epoch len_X batch_size <
          Conv1DClassifier.decrease_lr true g1 n_epoch len_X batch_size) ∧
    Conv1DClassifier.decrease_lr true 0 n_epoch len_X batch_size = 0.003 ∧
    Conv1DClassifier.decrease_lr true (n_epoch * len_X / batch_size)
        n_epoch len_X batch_size = 0.0001 := by
  have hT : 0 < n_epoch * len_X / batch_size := div_pos (mul_pos hn hl) hb
  have hrw : -(n_epoch * len_X) / batch_size
      = -(n_epoch * len_X / batch_size) := neg_div _ _
  refine ⟨?_, ?_, ?_, ?_, ?_, ?_⟩
  · intro g1 g2 h
    simp only [RNNTextClassifier.decrease_lr, if_true, hrw]
    exact expDecay_strictAnti (by norm_num) (by norm_num) hT g1 g2 h
  · simp only [RNNTextClassifier.decrease_lr, if_true, hrw]
    exact expDecay_at_zero _ _ _
  · simp only [RNNTextClassifier.decrease_lr, if_true, hrw]
    exact expDecay_at_T (by norm_num) (by norm_num) hT
  · intro g1 g2 h
    simp only [Conv1DClassifier.decrease_lr, if_true, hrw]
    exact expDecay_strictAnti (by norm_num) (by norm_num) hT g1 g2 h
  · simp only [Conv1DClassifier.decrease_lr, if_true, hrw]
    exact expDecay_at_zero _ _ _
  · simp only [Conv1DClassifier.decrease_lr, if_true, hrw]
    exact expDecay_at_T (by norm_num) (by norm_num) hT

/-- Witness for C2 at `n_epoch = len_X = batch_size = 1`. -/
theorem decrease_lr_spec_witness :
    (∀ g1 g2 : ℝ, g1 < g2 →
        RNNTextClassifier.decrease_lr true g2 1 1 1 <
          RNNTextClassifier.decrease_lr true g1 1 1 1) ∧
    RNNTextClassifier.decrease_lr true 0 1 1 1 = 0.005 ∧
    RNNTextClassifier.decrease_lr true (1 * 1 / 1) 1 1 1 = 0.001 ∧
    (∀ g1 g2 : ℝ, g1 < g2 →
        Conv1DClassifier.decrease_lr true g2 1 1 1 <
          Conv1DClassifier.decrease_lr true g1 1 1 1) ∧
    Conv1DClassifier.decrease_lr true 0 1 1 1 = 0.003 ∧
    Conv1DClassifier.decrease_lr true (1 * 1 / 1) 1 1 1 = 0.0001 :=
  decrease_lr_spec 1 1 1 one_pos one_pos one_pos

namespace RNNTextClassifier

/-- Custom softmax of `RNNTextClassifier.softmax`:
`exps = tf.exp(tensor); exps / tf.reduce_sum(exps, 1, keep_dims=True)`,
modelled per row (`n = seq_len` entries). -/
noncomputable def softmax (n : ℕ) (v : Fin n → ℝ) : Fin n → ℝ :=
  fun i => Real.exp (v i) / ∑ j, Real.exp (v j)

/-- Attention weights of `RNNTextClassifier.add_attention` for one
example of the batch: the raw score of position `t` is
`tanh(∑ c outputs[t][c] * h[c])` (the batched matmul of the RNN
outputs with the expanded final hidden state), then the custom softmax
is applied along the sequence axis. -/
noncomputable def attention_weights (n d : ℕ)
    (outputs : Fin n → Fin d → ℝ) (h : Fin d → ℝ) : Fin n → ℝ :=
  softmax n (fun t => Real.tanh (∑ c, outputs t c * h c))

/-- Attention output of `RNNTextClassifier.add_attention` for one
example: `matmul(transpose(outputs), expand_dims(weights, 2))` squeezed
to a vector, i.e. channel `c` is `∑ t outputs[t][c] * weights[t]`. -/
noncomputable def add_attention (n d : ℕ)
    (outputs : Fin n → Fin d → ℝ) (h : Fin d → ℝ) : Fin d → ℝ :=
  fun c => ∑ t, outputs t c * attention_weights n d outputs h t

theorem softmax_nonneg (n : ℕ) (v : Fin n → ℝ) (i : Fin n) :
    0 ≤ softmax n v i :=
  div_nonneg (Real.exp_nonneg _)
    (Finset.sum_nonneg fun _ _ => Real.exp_nonneg _)

theorem softmax_sum_one (n : ℕ) (hn : 0 < n) (v : Fin n → ℝ) :
    ∑ i, softmax n v i = 1 := by
  have hne : (Finset.univ : Finset (Fin n)).Nonempty :=
    ⟨⟨0, hn⟩, Finset.mem_univ _⟩
  have hS : 0 < ∑ j, Real.exp (v j) :=
    Finset.sum_pos (fun _ _ => Real.exp_pos _) hne
  unfold softmax
  rw [← Finset.sum_div, div_self (ne_of_gt hS)]

/-- C4: for every input (RNN output matrix and final hidden state),
the per-position attention weights are nonnegative and sum to `1`
along the sequence axis, and the attention output is the corresponding
weighted average of the RNN output vectors over sequence positions. -/
theorem add_attention_convex (n d : ℕ) (hn : 0 < n)
    (outputs : Fin n → Fin d → ℝ) (h : Fin d → ℝ) :
    (∀ t, 0 ≤ attention_weights n d outputs h t) ∧
    (∑ t, attention_weights n d outputs h t) = 1 ∧
    (∀ c, add_attention n d outputs h c
        = ∑ t, attention_weights n d outputs h t * outputs t c) := by
  refine ⟨fun t => softmax_nonneg n _ t, softmax_sum_one n hn _, fun c => ?_⟩
  unfold add_attention
  exact Finset.sum_congr rfl fun t _ => mul_comm _ _

/-- Witness for C4 at `n = d = 1` with zero inputs. -/
theorem add_attention_convex_witness :
    (∀ t, 0 ≤ attention_weights 1 1 (fun _ _ => 0) (fun _ => 0) t) ∧
    (∑ t, attention_weights 1 1 (fun _ _ => 0) (fun _ => 0) t) = 1 ∧
    (∀ c, add_attention 1 1 (fun _ _ => 0) (fun _ => 0) c
        = ∑ t, attention_weights 1 1 (fun _ _ => 0) (fun _ => 0) t
            * (fun (_ : Fin 1) (_ : Fin 1) => (0 : ℝ)) t c) :=
  add_attention_convex 1 1 Nat.one_pos (fun _ _ => 0) (fun _ => 0)

end RNNTextClassifier

namespace Conv1DClassifier

/-- Padding mode of the convolution and pooling ops (`self.padding`). -/
inductive Padding where
  | VALID
  | SAME
deriving DecidableEq, Repr

/-- Sequence length tracked by `add_conv1d`:
`seq_len - kernel_size + 1` under `'VALID'`, `seq_len` under `'SAME'`. -/
def current_seq_len (padding : Padding) (seq_len kernel_size : ℕ) : ℕ :=
  match padding with
  | .VALID => seq_len - kernel_size + 1
  | .SAME => seq_len

/-- Maximum of a list, `d` being returned for the empty list (pooling
windows are never empty where this is used). -/
def listMax [LinearOrder α] (d : α) : List α → α
  | [] => d
  | a :: t => t.foldl max a

/-- Number of output positions of `tf.nn.max_pool` along the pooled
axis, for input length `L`, window `k` and the given stride. -/
def poolOutLen (padding : Padding) (L k stride : ℕ) : ℕ :=
  match padding with
  | .VALID => if L < k then 0 else (L - k) / stride + 1
  | .SAME => (L + stride - 1) / stride

/-- Left padding added by `tf.nn.max_pool` under `'SAME'` (half of the
total padding needed to produce `poolOutLen` windows); `'VALID'` pads
nothing. -/
def padLeftAmt (padding : Padding) (L k stride : ℕ) : ℕ :=
  match padding with
  | .VALID => 0
  | .SAME => (max ((poolOutLen .SAME L k stride - 1) * stride + k) L - L) / 2

/-- In-bounds elements covered by pooling window `j` (padded positions
are skipped, as `max_pool` ignores its padding values). -/
def poolWindow (pl k stride j : ℕ) (x : List β) : List β :=
  (List.range k).filterMap (fun i =>
    if j * stride + i < pl then none else x[(j * stride + i - pl)]?)

/-- Model of `tf.nn.max_pool` over the sequence axis with `C` channels:
window `j` covers padded positions `[j*stride, j*stride + k)` and each
output channel is the maximum of that channel over the window. -/
def max_pool [LinearOrder α] (padding : Padding) (k stride : ℕ)
    (x : List (Fin C → α)) (d : α) : List (Fin C → α) :=
  (List.range (poolOutLen padding x.length k stride)).map
    (fun j c =>
      listMax d ((poolWindow (padLeftAmt padding x.length k stride)
        k stride j x).map (fun v => v c)))

/-- Global max-pool of `Conv1DClassifier.add_global_maxpool`:
`tf.nn.max_pool` with `ksize = strides = current_seq_len` and the
class's padding mode, applied to the convolution output. -/
def add_global_maxpool [LinearOrder α] (padding : Padding)
    (seq_len kernel_size : ℕ) (x : List (Fin C → α)) (d : α) :
    List (Fin C → α) :=
  max_pool padding (current_seq_len padding seq_len kernel_size)
    (current_seq_len padding seq_len kernel_size) x d

theorem foldl_max_init_le [LinearOrder α] (a : α) (t : List α) :
    a ≤ t.foldl max a := by
  induction t generalizing a with
  | nil => exact le_refl a
  | cons b t ih =>
      exact le_trans (le_max_left a b) (ih (max a b))

theorem le_foldl_max [LinearOrder α] (a x : α) (t : List α)
    (hx : x ∈ t) : x ≤ t.foldl max a := by
  induction t generalizing a with
  | nil => cases hx
  | cons b t ih =>
      rcases List.mem_cons.mp hx with h | h
      · subst h
        exact le_trans (le_max_right a x) (foldl_max_init_le _ t)
      · exact ih (max a b) h

theorem foldl_max_mem [LinearOrder α] (a : α) (t : List α) :
    t.foldl max a ∈ a :: t := by
  induction t generalizing a with
  | nil => exact List.mem_singleton.mpr rfl
  | cons b t ih =>
      have h := ih (max a b)
      rw [List.foldl_cons]
      rcases List.mem_cons.mp h with h | h
      · rw [h]
        rcases max_choice a b with hm | hm <;> rw [hm]
        · exact List.mem_cons_self _ _
        · exact List.mem_cons.mpr (Or.inr (List.mem_cons_self _ _))
      · exact List.mem_cons.mpr (Or.inr (List.mem_cons.mpr (Or.inr h)))

theorem le_listMax [LinearOrder α] (d x : α) (l : List α) (hx : x ∈ l) :
    x ≤ listMax d l := by
  cases l with
  | nil => cases hx
  | cons a t =>
      rcases List.mem_cons.mp hx with h | h
      · subst h
        exact foldl_max_init_le x t
      · exact le_foldl_max a x t h

theorem listMax_mem [LinearOrder α] (d : α) (l : List α) (hl : l ≠ []) :
    listMax d l ∈ l := by
  cases l with
  | nil => exact absurd rfl hl
  | cons a t => exact foldl_max_mem a t

theorem range_filterMap_getElem? (l : List β) :
    (List.range l.length).filterMap (fun i => l[i]?) = l := by
  induction l with
  | nil => simp
  | cons a t ih =>
      rw [List.length_cons, List.range_succ_eq_map, List.filterMap_cons]
      simp only [List.getElem?_cons_zero]
      rw [List.filterMap_map]
      have hfun : ((fun i => (a :: t)[i]?) ∘ Nat.succ) = fun i => t[i]? := by
        funext i
        simp
      rw [hfun, ih]

theorem poolOutLen_global (padding : Padding) (L : ℕ) (hL : 0 < L) :
    poolOutLen padding L L L = 1 := by
  cases padding with
  | VALID => simp [poolOutLen, Nat.sub_self]
  | SAME =>
      show (L + L - 1) / L = 1
      have h : L + L - 1 = (L - 1) + L := by omega
      rw [h, Nat.add_div_right _ hL, Nat.div_eq_of_lt (by omega)]

theorem padLeftAmt_global (padding : Padding) (L : ℕ) (hL : 0 < L) :
    padLeftAmt padding L L L = 0 := by
  cases padding with
  | VALID => rfl
  | SAME =>
      show (max ((poolOutLen .SAME L L L - 1) * L + L) L - L) / 2 = 0
      rw [poolOutLen_global .SAME L hL]
      simp

theorem poolWindow_global (x : List β) :
    poolWindow 0 x.length x.length 0 x = x := by
  unfold poolWindow
  simp only [Nat.zero_mul, Nat.zero_add, Nat.not_lt_zero, if_false,
    Nat.sub_zero]
  exact range_filterMap_getElem? x

/-- C5: when the pooled input has length
`current_seq_len padding seq_len kernel_size` (that is,
`seq_len - kernel_size + 1` under `'VALID'`, `seq_len` under `'SAME'`)
and that length is positive, the global max-pool stage produces a
single vector whose channel `c` is the per-channel maximum over all
sequence positions: an upper bound of channel `c` that is attained at
some position. -/
theorem add_global_maxpool_spec [LinearOrder α] (padding : Padding)
    (seq_len kernel_size : ℕ) {C : ℕ} (x : List (Fin C → α)) (d : α)
    (hlen : x.length = current_seq_len padding seq_len kernel_size)
    (hpos : 0 < x.length) :
    ∃ y, add_global_maxpool padding seq_len kernel_size x d = [y] ∧
      ∀ c, (∀ v ∈ x, v c ≤ y c) ∧ (∃ v ∈ x, y c = v c) := by
  simp only [add_global_maxpool, max_pool]
  rw [← hlen]
  rw [poolOutLen_global padding x.length hpos,
    padLeftAmt_global padding x.length hpos]
  have hr : List.range 1 = [0] := rfl
  rw [hr, List.map_cons, List.map_nil]
  refine ⟨_, rfl, fun c => ?_⟩
  rw [poolWindow_global x]
  constructor
  · intro v hv
    exact le_listMax d _ _ (List.mem_map_of_mem _ hv)
  · have hne : x.map (fun v => v c) ≠ [] := by
      apply List.ne_nil_of_length_pos
      simpa using hpos
    obtain ⟨v, hv, hveq⟩ :=
      List.mem_map.mp (listMax_mem d (x.map (fun v => v c)) hne)
    exact ⟨v, hv, hveq.symm⟩

/-- Witness for C5 under `'VALID'` padding with `seq_len = 2`,
`kernel_size = 1` and a two-position, one-channel input. -/
theorem add_global_maxpool_spec_witness :
    ∃ y, add_global_maxpool Padding.VALID 2 1
        ([fun _ => 3, fun _ => 5] : List (Fin 1 → ℕ)) 0 = [y] ∧
      ∀ c, (∀ v ∈ ([fun _ => 3, fun _ => 5] : List (Fin 1 → ℕ)),
              v c ≤ y c) ∧
        (∃ v ∈ ([fun _ => 3, fun _ => 5] : List (Fin 1 → ℕ)), y c = v c) :=
  add_global_maxpool_spec Padding.VALID 2 1
    ([fun _ => 3, fun _ => 5] : List (Fin 1 → ℕ)) 0 rfl (by decide)

end Conv1DClassifier

/-- Average helper shared verbatim by both classes (`list_avg`):
`sum(l) / len(l)`.  Python division raises `ZeroDivisionError` when
`len(l) = 0`, modelled with `Except`. -/
def list_avg [DivisionRing α] (l : List α) : Except String α :=
  if l.length = 0 then Except.error "ZeroDivisionError: division by zero"
  else Except.ok (l.sum / (l.length : α))

/-- Per-batch validation scores of one epoch of `fit`: the validation
inputs and labels are cut with `gen_batch`, paired by `zip`, and each
pair is scored by one `sess.run` evaluation (the oracle `score`);
the scores are collected in order (`val_loss_list` / `val_acc_list`). -/
def val_scores (score : List γ → List δ → α)
    (valX : List γ) (valY : List δ) (batch_size : ℕ) : List α :=
  ((gen_batch valX batch_size).zip (gen_batch valY batch_size)).map
    (fun p => score p.1 p.2)

/-- Recorded validation value of one epoch:
`val_loss = self.list_avg(val_loss_list)`. -/
def epoch_val [DivisionRing α] (score : List γ → List δ → α)
    (valX : List γ) (valY : List δ) (batch_size : ℕ) : Except String α :=
  list_avg (val_scores score valX valY batch_size)

/-- Validation entries appended to the `fit` log over `n_epoch` epochs;
the oracle is epoch-indexed since training updates the weights between
epochs.  A raised `ZeroDivisionError` aborts `fit` without returning
the log, modelled by `mapM` short-circuiting on `Except.error`. -/
def fit_val_log [DivisionRing α] (score : ℕ → List γ → List δ → α)
    (valX : List γ) (valY : List δ) (batch_size n_epoch : ℕ) :
    Except String (List α) :=
  (List.range n_epoch).mapM (fun e => epoch_val (score e) valX valY batch_size)

/-- Number of batches produced by `gen_batch` is `⌈len arr / bs⌉`. -/
theorem gen_batch_length (arr : List α) (batch_size : ℕ) :
    0 < batch_size →
    (gen_batch arr batch_size).length
      = (arr.length + batch_size - 1) / batch_size := by
  induction arr, batch_size using gen_batch.induct with
  | case1 arr =>
      intro h
      exact absurd h (lt_irrefl 0)
  | case2 arr batch_size hbs he =>
      intro hpos
      have harr : arr = [] := List.isEmpty_iff.mp he
      subst harr
      rw [gen_batch_nil]
      simp only [List.length_nil, List.length_nil, Nat.zero_add]
      rw [Nat.div_eq_of_lt (by omega)]
  | case3 arr batch_size hbs he ih =>
      intro hpos
      have harr : arr ≠ [] := by
        intro h
        exact he (by simp [h])
      have hlen : 0 < arr.length := List.length_pos.mpr harr
      rw [gen_batch_cons arr batch_size hbs harr]
      by_cases hd : batch_size < arr.length
      · have heq : arr.length + batch_size - 1
            = ((arr.length - batch_size) + batch_size - 1) + batch_size := by
          omega
        rw [List.length_cons, ih hpos, List.length_drop, heq,
          Nat.add_div_right _ hpos]
      · push_neg at hd
        have hdrop : arr.drop batch_size = [] :=
          List.drop_eq_nil_of_le hd
        rw [hdrop, gen_batch_nil]
        have h1 : batch_size ≤ arr.length + batch_size - 1 := by omega
        have h2 : arr.length + batch_size - 1 < 2 * batch_size := by omega
        rw [List.length_singleton]
        symm
        exact Nat.div_eq_of_lt_le (by omega) (by omega)

theorem except_mapM_ok {α β : Type} (f : β → Except String α) (g : β → α)
    (l : List β) (h : ∀ e ∈ l, f e = .ok (g e)) :
    l.mapM f = .ok (l.map g) := by
  induction l with
  | nil => rfl
  | cons a t ih =>
      rw [List.mapM_cons, h a (List.mem_cons_self a t),
        ih (fun e he => h e (List.mem_cons.mpr (Or.inr he)))]
      rfl

theorem except_mapM_cons_error {α β : Type} (f : β → Except String α)
    (a : β) (l : List β) (msg : String) (h : f a = .error msg) :
    (a :: l).mapM f = .error msg := by
  rw [List.mapM_cons, h]
  rfl

/-- C6: with a non-empty validation set, each epoch's recorded
validation value is `Except.ok` of the unweighted arithmetic mean —
sum divided by count, exactly `list_avg` — of the per-batch scores of
that epoch; the number of scored batches is `⌈len valX / batch_size⌉`
(each batch counts once, whatever its size), and the log returned by
`fit` holds exactly these means, one per epoch. -/
theorem fit_val_log_spec {α γ δ : Type} [DivisionRing α]
    (score : ℕ → List γ → List δ → α)
    (valX : List γ) (valY : List δ) (batch_size n_epoch : ℕ)
    (hbs : 0 < batch_size) (hval : valX ≠ [])
    (hlen : valY.length = valX.length) :
    (∀ e, (val_scores (score e) valX valY batch_size).length
        = (valX.length + batch_size - 1) / batch_size) ∧
    (∀ e, epoch_val (score e) valX valY batch_size
        = Except.ok ((val_scores (score e) valX valY batch_size).sum
            / ((val_scores (score e) valX valY batch_size).length : α))) ∧
    fit_val_log score valX valY batch_size n_epoch
      = Except.ok ((List.range n_epoch).map (fun e =>
          (val_scores (score e) valX valY batch_size).sum
            / ((val_scores (score e) valX valY batch_size).length : α))) := by
  have hzip : ∀ s : List γ → List δ → α,
      (val_scores s valX valY batch_size).length
        = (valX.length + batch_size - 1) / batch_size := by
    intro s
    unfold val_scores
    rw [List.length_map, List.length_zip,
      gen_batch_length valX batch_size hbs,
      gen_batch_length valY batch_size hbs, hlen, Nat.min_self]
  have hposlen : 0 < valX.length := List.length_pos.mpr hval
  have hdiv : 0 < (valX.length + batch_size - 1) / batch_size :=
    Nat.div_pos (by omega) hbs
  have hne : ∀ s : List γ → List δ → α,
      (val_scores s valX valY batch_size).length ≠ 0 := by
    intro s
    rw [hzip s]
    omega
  have hok : ∀ s : List γ → List δ → α,
      epoch_val s valX valY batch_size
        = Except.ok ((val_scores s valX valY batch_size).sum
            / ((val_scores s valX valY batch_size).length : α)) := by
    intro s
    unfold epoch_val list_avg
    rw [if_neg (hne s)]
  exact ⟨fun e => hzip _, fun e => hok _,
    except_mapM_ok _ _ _ (fun e _ => hok (score e))⟩

/-- Witness for C6 at `valX = [1,2,3]`, `valY = [4,5,6]`,
`batch_size = 2`, `n_epoch = 2`, constant score `1`. -/
theorem fit_val_log_spec_witness :
    (∀ _e : ℕ, (val_scores (fun (_ : List ℕ) (_ : List ℕ) => (1 : ℚ))
        [1, 2, 3] [4, 5, 6] 2).length
        = (([1, 2, 3] : List ℕ).length + 2 - 1) / 2) ∧
    (∀ _e : ℕ, epoch_val (fun (_ : List ℕ) (_ : List ℕ) => (1 : ℚ))
        [1, 2, 3] [4, 5, 6] 2
        = Except.ok ((val_scores (fun (_ : List ℕ) (_ : List ℕ) => (1 : ℚ))
              [1, 2, 3] [4, 5, 6] 2).sum
            / ((val_scores (fun (_ : List ℕ) (_ : List ℕ) => (1 : ℚ))
              [1, 2, 3] [4, 5, 6] 2).length : ℚ))) ∧
    fit_val_log (fun _ (_ : List ℕ) (_ : List ℕ) => (1 : ℚ))
        ([1, 2, 3] : List ℕ) ([4, 5, 6] : List ℕ) 2 2
      = Except.ok ((List.range 2).map (fun _e =>
          (val_scores (fun (_ : List ℕ) (_ : List ℕ) => (1 : ℚ))
              [1, 2, 3] [4, 5, 6] 2).sum
            / ((val_scores (fun (_ : List ℕ) (_ : List ℕ) => (1 : ℚ))
              [1, 2, 3] [4, 5, 6] 2).length : ℚ))) :=
  fit_val_log_spec (fun _ (_ : List ℕ) (_ : List ℕ) => (1 : ℚ))
    [1, 2, 3] [4, 5, 6] 2 2 (by decide) (by decide) rfl

/-- C9: calling `fit` with a validation set whose inputs are empty
makes the validation-averaging step divide by zero (`list_avg` of the
empty per-batch score list), so `fit` raises `ZeroDivisionError` in
its first epoch instead of returning the log. -/
theorem fit_val_log_empty_raises {α γ δ : Type} [DivisionRing α]
    (score : ℕ → List γ → List δ → α) (valY : List δ)
    (batch_size n_epoch : ℕ) (hep : 0 < n_epoch) :
    fit_val_log score ([] : List γ) valY batch_size n_epoch
      = Except.error "ZeroDivisionError: division by zero" := by
  obtain ⟨n, rfl⟩ : ∃ n, n_epoch = n + 1 := ⟨n_epoch - 1, by omega⟩
  unfold fit_val_log
  rw [List.range_succ_eq_map]
  apply except_mapM_cons_error
  unfold epoch_val val_scores
  rw [gen_batch_nil]
  simp [list_avg]

/-- Witness for C9 with one epoch and empty validation inputs. -/
theorem fit_val_log_empty_raises_witness :
    fit_val_log (fun _ _ _ => (1 : ℚ)) ([] : List ℕ) ([] : List ℕ) 128 1
      = Except.error "ZeroDivisionError: division by zero" :=
  fit_val_log_empty_raises (fun _ _ _ => (1 : ℚ)) ([] : List ℕ) 128 1
    Nat.one_pos

/-- Model of `np.argmax` over the first `K` entries of a row: the
first index attaining the maximum (later indices replace the running
best only on a strict increase). -/
def np_argmax [LinearOrder α] (K : ℕ) (v : ℕ → α) : ℕ :=
  (List.range K).foldl (fun best i => if v best < v i then i else best) 0

theorem foldl_argmax_init_le [LinearOrder α] (v : ℕ → α) (b : ℕ)
    (l : List ℕ) :
    v b ≤ v (l.foldl (fun best i => if v best < v i then i else best) b) := by
  induction l generalizing b with
  | nil => exact le_refl _
  | cons i t ih =>
      rw [List.foldl_cons]
      refine le_trans ?_ (ih (if v b < v i then i else b))
      by_cases h : v b < v i
      · rw [if_pos h]
        exact le_of_lt h
      · rw [if_neg h]

theorem foldl_argmax_mem_le [LinearOrder α] (v : ℕ → α) (b j : ℕ)
    (l : List ℕ) (hj : j ∈ l) :
    v j ≤ v (l.foldl (fun best i => if v best < v i then i else best) b) := by
  induction l generalizing b with
  | nil => cases hj
  | cons i t ih =>
      rw [List.foldl_cons]
      rcases List.mem_cons.mp hj with h | h
      · subst h
        refine le_trans ?_ (foldl_argmax_init_le v _ t)
        by_cases hb : v b < v j
        · rw [if_pos hb]
        · rw [if_neg hb]
          exact le_of_not_lt hb
      · exact ih _ h

theorem foldl_argmax_mem [LinearOrder α] (v : ℕ → α) (b : ℕ)
    (l : List ℕ) :
    l.foldl (fun best i => if v best < v i then i else best) b ∈ b :: l := by
  induction l generalizing b with
  | nil => exact List.mem_singleton.mpr rfl
  | cons i t ih =>
      rw [List.foldl_cons]
      have h := ih (if v b < v i then i else b)
      rcases List.mem_cons.mp h with h | h
      · rw [h]
        by_cases hb : v b < v i
        · rw [if_pos hb]
          exact List.mem_cons.mpr (Or.inr (List.mem_cons_self _ _))
        · rw [if_neg hb]
          exact List.mem_cons_self _ _
      · exact List.mem_cons.mpr (Or.inr (List.mem_cons.mpr (Or.inr h)))

theorem np_argmax_lt [LinearOrder α] (K : ℕ) (hK : 0 < K) (v : ℕ → α) :
    np_argmax K v < K := by
  have h := foldl_argmax_mem v 0 (List.range K)
  rcases List.mem_cons.mp h with h | h
  · rw [np_argmax, h]
    exact hK
  · exact List.mem_range.mp h

theorem np_argmax_is_max [LinearOrder α] (K : ℕ) (v : ℕ → α) :
    ∀ j < K, v j ≤ v (np_argmax K v) := fun j hj =>
  foldl_argmax_mem_le v 0 j (List.range K) (List.mem_range.mpr hj)

namespace RNNTextClassifier

/-- Model of `RNNTextClassifier.predict` on the stateless path
(`stateful` handling is treated separately): the per-batch logit
matrices returned by `sess.run(self.logits, ...)` (the per-row oracle
`logits`, `K = n_out` columns) are collected in batch order, stacked
with `np.vstack`, and reduced row-wise by `np.argmax(·, 1)`. -/
def predict [LinearOrder α] (K : ℕ) (logits : γ → ℕ → α)
    (X_test : List γ) (batch_size : ℕ) : List ℕ :=
  (((gen_batch X_test batch_size).map
      (fun batch => batch.map logits)).flatten).map
    (fun row => np_argmax K row)

/-- C7: for non-empty `X_test` and positive `batch_size`,
`RNNTextClassifier.predict` returns a flat list of `X_test.length`
class indices whose `i`-th entry is `np.argmax` of the logits of the
`i`-th input row — an index below `K` whose logit is maximal among the
first `K` — with rows kept in input order across batch boundaries. -/
theorem predict_spec [LinearOrder α] (K : ℕ) (logits : γ → ℕ → α)
    (X_test : List γ) (batch_size : ℕ) (hK : 0 < K)
    (_hne : X_test ≠ []) (hbs : 0 < batch_size) :
    (predict K logits X_test batch_size).length = X_test.length ∧
    predict K logits X_test batch_size
      = X_test.map (fun row => np_argmax K (logits row)) ∧
    ∀ row ∈ X_test, np_argmax K (logits row) < K ∧
      ∀ j < K, logits row j ≤ logits row (np_argmax K (logits row)) := by
  have hflat : ((gen_batch X_test batch_size).map
      (fun batch => batch.map logits)).flatten = X_test.map logits := by
    rw [← List.map_flatten, gen_batch_flatten X_test batch_size hbs]
  have heq : predict K logits X_test batch_size
      = X_test.map (fun row => np_argmax K (logits row)) := by
    rw [predict, hflat, List.map_map]
    rfl
  refine ⟨?_, heq, fun row _ => ⟨np_argmax_lt K hK (logits row),
    np_argmax_is_max K (logits row)⟩⟩
  rw [heq, List.length_map]

/-- Witness for C7 with two rows of three logits each. -/
theorem predict_spec_witness :
    (predict 3 (fun r j => r + j) ([10, 20] : List ℕ) 1).length
      = ([10, 20] : List ℕ).length ∧
    predict 3 (fun r j => r + j) ([10, 20] : List ℕ) 1
      = ([10, 20] : List ℕ).map
          (fun row => np_argmax 3 ((fun r j => r + j) row)) ∧
    ∀ row ∈ ([10, 20] : List ℕ), np_argmax 3 ((fun r j => r + j) row) < 3 ∧
      ∀ j < 3, (fun r j => r + j) row j
          ≤ (fun r j => r + j) row (np_argmax 3 ((fun r j => r + j) row)) :=
  predict_spec 3 (fun r j => r + j) [10, 20] 1 (by decide) (by decide)
    (by decide)

end RNNTextClassifier

namespace Conv1DClassifier

/-- Model of `Conv1DClassifier.predict`: the per-batch logit matrices
(`K = n_out` columns, one row per input) are collected in batch order
and joined with `np.concatenate`; no argmax is taken, so the result is
the raw logit matrix. -/
def predict {γ : Type u} {α : Type v} (K : ℕ) (logits : γ → Fin K → α)
    (X_test : List γ) (batch_size : ℕ) : List (Fin K → α) :=
  ((gen_batch X_test batch_size).map (fun batch => batch.map logits)).flatten

/-- C8: for non-empty `X_test` and positive `batch_size`,
`Conv1DClassifier.predict` returns the raw logit matrix of shape
`(X_test.length, K)` — the concatenation of per-batch logit rows in
input order, row `i` being the logit vector of input `i` — rather than
argmax class indices (contrast `RNNTextClassifier.predict`, whose
result is a list of `np.argmax` indices). -/
theorem predict_raw_logits {γ : Type u} {α : Type v} (K : ℕ)
    (logits : γ → Fin K → α) (X_test : List γ) (batch_size : ℕ)
    (_hne : X_test ≠ []) (hbs : 0 < batch_size) :
    predict K logits X_test batch_size = X_test.map logits ∧
    (predict K logits X_test batch_size).length = X_test.length := by
  have heq : predict K logits X_test batch_size = X_test.map logits := by
    rw [predict, ← List.map_flatten, gen_batch_flatten X_test batch_size hbs]
  exact ⟨heq, by rw [heq, List.length_map]⟩

/-- Witness for C8 with two rows, two logit columns, batches of one. -/
theorem predict_raw_logits_witness :
    predict 2 (fun r (j : Fin 2) => r + j.val) ([10, 20] : List ℕ) 1
      = ([10, 20] : List ℕ).map (fun r (j : Fin 2) => r + j.val) ∧
    (predict 2 (fun r (j : Fin 2) => r + j.val) ([10, 20] : List ℕ) 1).length
      = ([10, 20] : List ℕ).length :=
  predict_raw_logits 2 (fun r (j : Fin 2) => r + j.val) [10, 20] 1
    (by decide) (by decide)

end Conv1DClassifier

namespace RNNTextClassifier

/-- One batch loop of `fit`/`predict` with `stateful` handling: the
session oracle `step` maps a batch and an initial RNN state to the
batch output and the final RNN state (`sess.run([... , self.final_state],
{..., self.init_state: s})`); `zero` is the zero state that the graph
builds from the fed `batch_size` when `init_state` is not fed.  A batch
of exactly `batch_size` rows (with `stateful`) is run from the carried
state and updates it; any other batch is run from the zero state and
leaves the carried state untouched. -/
def statefulLoop (stateful : Bool) (batch_size : ℕ)
    (step : List γ → σ → δ × σ) (zero : σ) (X : List γ) : List δ × σ :=
  (gen_batch X batch_size).foldl
    (fun acc batch =>
      if stateful ∧ batch.length = batch_size then
        (acc.1 ++ [(step batch acc.2).1], (step batch acc.2).2)
      else
        (acc.1 ++ [(step batch zero).1], acc.2))
    ([], zero)

/-- Reference threading: every batch consumes the carried state and
updates it. -/
def threadBatches (step : List γ → σ → δ × σ) :
    List (List γ) → σ → List δ × σ
  | [], s => ([], s)
  | b :: rest, s =>
      ((step b s).1 :: (threadBatches step rest (step b s).2).1,
       (threadBatches step rest (step b s).2).2)

theorem statefulLoop_foldl_full (step : List γ → σ → δ × σ)
    (zero : σ) (batch_size : ℕ) (bs : List (List γ))
    (hfull : ∀ b ∈ bs, b.length = batch_size) :
    ∀ (acc : List δ) (s : σ),
      bs.foldl
        (fun acc batch =>
          if true = true ∧ batch.length = batch_size then
            (acc.1 ++ [(step batch acc.2).1], (step batch acc.2).2)
          else
            (acc.1 ++ [(step batch zero).1], acc.2))
        (acc, s)
      = (acc ++ (threadBatches step bs s).1, (threadBatches step bs s).2) := by
  induction bs with
  | nil =>
      intro acc s
      simp [threadBatches]
  | cons b rest ih =>
      intro acc s
      rw [List.foldl_cons, if_pos ⟨rfl, hfull b (List.mem_cons_self b rest)⟩]
      rw [ih (fun x hx => hfull x (List.mem_cons.mpr (Or.inr hx))) _ _]
      simp [threadBatches]

end RNNTextClassifier

namespace RNNTextClassifier

/-- C10: with `stateful = true` and a final partial batch
(`len X % batch_size ≠ 0`), the batch loop threads the carried RNN
state through exactly the full batches (each consumes the previous
final state and updates it), while the final partial batch — whose
length is the remainder, hence less than `batch_size` — runs from the
zero initial state and neither consumes nor updates the carried state:
the loop's resulting state is the one produced by the full batches
alone. -/
theorem statefulLoop_remainder_batch (step : List γ → σ → δ × σ)
    (zero : σ) (batch_size : ℕ) (X : List γ)
    (hbs : 0 < batch_size) (hmod : X.length % batch_size ≠ 0) :
    ∀ last, (gen_batch X batch_size).getLast? = some last →
      last.length = X.length % batch_size ∧
      last.length < batch_size ∧
      statefulLoop true batch_size step zero X
        = ((threadBatches step (gen_batch X batch_size).dropLast zero).1
            ++ [(step last zero).1],
           (threadBatches step (gen_batch X batch_size).dropLast zero).2) := by
  intro last hlast
  have hlenlast : last.length = X.length % batch_size :=
    gen_batch_getLast_length X batch_size hbs hmod last hlast
  have hlt : last.length < batch_size := by
    rw [hlenlast]
    exact Nat.mod_lt _ hbs
  obtain ⟨ys, hys⟩ := List.getLast?_eq_some_iff.mp hlast
  have hdrop : (gen_batch X batch_size).dropLast = ys := by
    rw [hys, List.dropLast_concat]
  have hfull : ∀ b ∈ ys, b.length = batch_size := by
    intro b hb
    apply gen_batch_dropLast_length X batch_size hbs
    rw [hdrop]
    exact hb
  refine ⟨hlenlast, hlt, ?_⟩
  rw [hdrop]
  rw [statefulLoop, hys, List.foldl_append,
    statefulLoop_foldl_full step zero batch_size ys hfull [] zero]
  rw [List.foldl_cons, List.foldl_nil,
    if_neg (fun h => absurd h.2 (Nat.ne_of_lt hlt))]
  simp

/-- Witness for C10: `X = [1,2,3]`, `batch_size = 2` — one full batch
`[1,2]` and a final partial batch `[3]` — with a concrete step
function over state `ℕ`. -/
theorem statefulLoop_remainder_batch_witness :
    ([3] : List ℕ).length = ([1, 2, 3] : List ℕ).length % 2 ∧
    ([3] : List ℕ).length < 2 ∧
    statefulLoop true 2 (fun (b : List ℕ) (s : ℕ) => (b.sum + s, s + 1)) 0
        [1, 2, 3]
      = ((threadBatches (fun (b : List ℕ) (s : ℕ) => (b.sum + s, s + 1))
            (gen_batch ([1, 2, 3] : List ℕ) 2).dropLast 0).1
          ++ [((fun (b : List ℕ) (s : ℕ) => (b.sum + s, s + 1)) [3] 0).1],
         (threadBatches (fun (b : List ℕ) (s : ℕ) => (b.sum + s, s + 1))
            (gen_batch ([1, 2, 3] : List ℕ) 2).dropLast 0).2) :=
  statefulLoop_remainder_batch (fun (b : List ℕ) (s : ℕ) => (b.sum + s, s + 1))
    0 2 [1, 2, 3] (by decide) (by decide) [3]
    (by simp [gen_batch_cons, gen_batch_nil])

end RNNTextClassifier
